import Mathlib

/-!
Shallow embedding of the qpic exporter in src/tequila/circuit/qpic.py.

The module converts a circuit into a line-oriented qpic document and, from
the file-export entry point, invokes the external qpic renderer. Python
strings become Lean `String` (filenames become `List Char` where the code
splits them), floats become `ℚ` (IEEE doubles idealised as exact rationals;
every comparison the claims touch sits far from the rounding scale of a
double), duck-typed attribute checks become explicit Boolean fields, and
effects (file writes, subprocess calls, raised exceptions) become explicit
result values.
-/

namespace Qpic

/-- The IEEE-754 double `numpy.pi`, as an exact rational: the float64
nearest to the real number pi is 884279719003555 / 2 ^ 48. -/
def piQ : ℚ := 884279719003555 / 281474976710656

/-- Tolerance used by `numpy.isclose(a, b, atol=1.e-4)`: the numpy rule is
`|a - b| <= atol + rtol * |b|` with the default `rtol = 1e-5`. -/
def iscloseTol (b : ℚ) : ℚ := 1 / 10000 + 1 / 100000 * abs b

/-- A gate parameter as the exporter sees it: each field records the result
of one of the dynamic checks the Python code performs on the parameter
object (`isinstance(p, tuple)`, `hasattr(p, "extract_variables")`,
`isinstance(p, FixedVariable)`, `isinstance(p, numbers.Number)`,
`p is not None`), plus the payloads those branches read (`float(p)`,
the bracket-stripped `repr` of the variable list, and `repr(p)`). -/
structure ParamV where
  isTuple : Bool
  hasExtractVariables : Bool
  extracted : String
  isFixedVariable : Bool
  value : ℚ
  isNumber : Bool
  isNone : Bool
  reprStr : String

/-- Label for a recognised fraction of pi: `"-\pi/{i}"` for a negative
parameter, `"+\pi/{i}"` otherwise. -/
def fracLabel (v : ℚ) (i : Nat) : String :=
  (if v < 0 then "-\\pi/" else "+\\pi/") ++ toString i

/-- Zero-pad a digit string on the left to width 4. -/
def pad4 (s : String) : String :=
  String.mk (List.replicate (4 - s.length) '0') ++ s

/-- Python `"{:+2.4f}".format(v)`: explicit sign, fixed point, exactly four
fractional digits (the width 2 is always exceeded so it never pads).
Rounding is to the nearest 4-decimal value; exact decimal ties do not
arise for the inputs considered. -/
def signedFixed4 (v : ℚ) : String :=
  let n : Nat := (Int.floor (abs v * 10000 + 1 / 2)).toNat
  (if v < 0 then "-" else "+") ++ toString (n / 10000) ++ "." ++ pad4 (toString (n % 10000))

/-- The loop `for i in [1,2,3,4]: if numpy.isclose(abs(v), numpy.pi/i, atol=1.e-4)`
unrolled: the first divisor whose fraction of pi is close to `|v|`. -/
def closeIdx (v : ℚ) : Option Nat :=
  if abs (abs v - piQ / 1) ≤ iscloseTol (piQ / 1) then some 1
  else if abs (abs v - piQ / 2) ≤ iscloseTol (piQ / 2) then some 2
  else if abs (abs v - piQ / 3) ≤ iscloseTol (piQ / 3) then some 3
  else if abs (abs v - piQ / 4) ≤ iscloseTol (piQ / 4) then some 4
  else none

/-- Translation of `assign_name` from qpic.py. -/
def assign_name (p : ParamV) : String :=
  if p.isTuple then "\\theta"
  else if p.hasExtractVariables then p.extracted
  else if p.isFixedVariable then
    match closeIdx p.value with
    | some i => fracLabel p.value i
    | none => signedFixed4 p.value
  else p.reprStr

/-- A Pauli string: the mapping from qubit to single-letter operator label,
in iteration order (`ps.items()`); empty means the identity. -/
structure PauliString where
  entries : List (Nat × String)

/-- A gate as the exporter sees it. `hasParameter` and `hasAngle` record the
`hasattr` checks; `makeGenerator b` is `g.make_generator(include_controls=b)`
(`none` when the framework returns `None`); `generatorPS` is
`g.generator.paulistrings` read by the hard-coded Exp-Pauli/GenRot branch;
`axisStr` is `g.axis_to_string[g.axis]`. -/
structure Gate where
  name : String
  target : List Nat
  control : List Nat
  hasParameter : Bool
  parameter : ParamV
  hasAngle : Bool
  axisStr : String
  makeGenerator : Bool → Option (List PauliString)
  generatorPS : List PauliString

/-- Python `g.is_controlled()`: the gate has control qubits. -/
def Gate.is_controlled (g : Gate) : Bool := !g.control.isEmpty

/-- A circuit: ordered qubits and ordered gates. -/
structure Circuit where
  qubits : List Nat
  gates : List Gate

/-- The `group_together` argument: `False`, `True`, or a string. -/
inductive GroupT where
  | falseV
  | trueV
  | strV (s : String)

/-- The `qubit_names` argument: `None`, a single string (broadcast), or a
list of per-qubit display names. -/
inductive QNames where
  | auto
  | single (s : String)
  | perQubit (l : List String)

/-- The keyword options of `export_to_qpic`, in signature order. -/
structure Opts where
  always_use_generators : Bool
  decompose_control_generators : Bool
  group_together : GroupT
  qubit_names : QNames
  mark_parametrized_gates : Bool

/-- Python `s.upper()` for the ASCII strings this module handles (the core
`String.toUpper` goes through a non-reducing auxiliary, so the map over
characters is spelled out). -/
def strUpper (s : String) : String := String.mk (s.data.map Char.toUpper)

/-- Wire identifier `"a" + str(q)` (the `names` dict and the inline
`"a{qubit}"` format agree on this). -/
def wireId (q : Nat) : String := "a" ++ toString q

/-- The two fixed COLOR header lines. -/
def colorHeader : String :=
  "COLOR tq 0.03137254901960784 0.1607843137254902 0.23921568627450981\n"
  ++ "COLOR guo 0.988 0.141 0.757\n"

/-- Lines 50-51: `group_together is True` is replaced by `"TOUCH"`; only a
string survives the later `hasattr(group_together, "upper")` check. -/
def normGroup : GroupT → Option String
  | GroupT.falseV => none
  | GroupT.trueV => some "TOUCH"
  | GroupT.strV s => some s

/-- Resolution of `qubit_names` before the wire loop: `None` becomes the
qubit identifiers themselves (so `str(q)` is printed), a single string is
broadcast, a list is used positionally. -/
def resolveQNames (qubits : List Nat) : QNames → List String
  | QNames.auto => qubits.map (fun q => toString q)
  | QNames.single s => qubits.map (fun _ => s)
  | QNames.perQubit l => l

/-- The wire-declaration lines, one per qubit in circuit order:
`name + " W " + str(qubit_names[i]) + "\n"`. Positional indexing is
modelled by `zip` (the Python code raises IndexError when too few names
are supplied; no claim touches that case). -/
def wireLines (qubits : List Nat) (qn : QNames) : List String :=
  (qubits.zip (resolveQNames qubits qn)).map
    (fun p => wireId p.1 ++ " W " ++ p.2 ++ "\n")

/-- Colors chosen at the top of the gate loop: the defaults are
`gcol = "tq"`, `tcol = "white"`; both are overridden when the gate has a
`parameter` attribute that is not a `numbers.Number` and
`mark_parametrized_gates` is set. Returns `(gcol, tcol)`. -/
def gateColors (g : Gate) (mark : Bool) : String × String :=
  if g.hasParameter && !g.parameter.isNumber && mark
  then ("guo", "black") else ("tq", "white")

/-- One filled operator box:
`" a{qubit} P:fill={gcol}  \textcolor{tcol}{{{op}}} "`. -/
def opBox (qubit : Nat) (gcol tcol op : String) : String :=
  " a" ++ toString qubit ++ " P:fill=" ++ gcol ++ "  \\textcolor\x7b" ++ tcol
  ++ "\x7d\x7b" ++ op ++ "\x7d "

/-- Control-wire references `names[c] + " "` for each control qubit. -/
def controlRefs (g : Gate) : String :=
  String.join (g.control.map (fun c => wireId c ++ " "))

/-- The loop over the Pauli strings of a generator: an empty string is
skipped by `continue`; a non-empty one emits one box per qubit/operator
pair (operator upper-cased), then control references when `emitControls`
holds, then a newline. Both generator branches share this loop and differ
only in `emitControls`. -/
def renderTermLines (g : Gate) (gcol tcol : String) (emitControls : Bool) :
    List PauliString → String
  | [] => ""
  | ps :: rest =>
    (if ps.entries.isEmpty then ""
     else
       String.join (ps.entries.map (fun kv => opBox kv.1 gcol tcol (strUpper kv.2)))
       ++ (if emitControls then controlRefs g else "") ++ "\n")
    ++ renderTermLines g gcol tcol emitControls rest

/-- Lines 86-89: when `group_together` survived as a string, one grouping
line per gate: a reference `"a{t} "` for every circuit qubit followed by
the upper-cased directive and a newline. -/
def groupLine (qubits : List Nat) : Option String → String
  | none => ""
  | some s =>
    String.join (qubits.map (fun t => "a" ++ toString t ++ " ")) ++ strUpper s ++ "\n"

/-- The special-case branch for gates named H/h: one filled box labelled H
per target qubit, each followed by control references when controlled. -/
def renderHGate (g : Gate) (gcol tcol : String) : String :=
  String.join (g.target.map (fun t =>
    opBox t gcol tcol "H" ++ (if g.is_controlled then controlRefs g else "")))

/-- The generic fallback branch: one wire reference per target, then either
a rotation box `R_{axis}(label)`, a named parametrised box `name(label)`
(both with width `25 + 5 * len(label)`), or the bare gate name; then the
control references. -/
def renderGeneric (g : Gate) : String :=
  String.join (g.target.map (fun t => wireId t ++ " "))
  ++ (if g.hasAngle then
        " G $R_\x7b" ++ g.axisStr ++ "\x7d(" ++ assign_name g.parameter
        ++ ")$ width=" ++ toString (25 + 5 * (assign_name g.parameter).length) ++ " "
      else if g.hasParameter && !g.parameter.isNone then
        " G $" ++ g.name ++ "(" ++ assign_name g.parameter ++ ")$ width="
        ++ toString (25 + 5 * (assign_name g.parameter).length) ++ " "
      else g.name ++ " ")
  ++ (if g.is_controlled then controlRefs g else "")

/-- The body of the gate loop: branch selection in source order (special
case H, generator-based when enabled and available, hard-coded
Exp-Pauli/GenRot generator branch, generic fallback), then the
unconditional trailing newline of line 119. -/
def renderGate (qubits : List Nat) (o : Opts) (g : Gate) : String :=
  (if g.name = "H" ∨ g.name = "h" then
     renderHGate g (gateColors g o.mark_parametrized_gates).1
       (gateColors g o.mark_parametrized_gates).2
   else if o.always_use_generators
       && (g.makeGenerator o.decompose_control_generators).isSome then
     renderTermLines g (gateColors g o.mark_parametrized_gates).1
       (gateColors g o.mark_parametrized_gates).2
       (g.is_controlled && !o.decompose_control_generators)
       ((g.makeGenerator o.decompose_control_generators).getD [])
     ++ groupLine qubits (normGroup o.group_together)
   else if strUpper g.name = strUpper "Exp-Pauli" ∨ strUpper g.name = strUpper "GenRot" then
     renderTermLines g (gateColors g o.mark_parametrized_gates).1
       (gateColors g o.mark_parametrized_gates).2
       g.is_controlled g.generatorPS
   else renderGeneric g)
  ++ "\n"

/-- The full document string built by `export_to_qpic`: the color header,
the wire declarations, and every gate rendering in circuit order. -/
def buildDoc (c : Circuit) (o : Opts) : String :=
  colorHeader ++ String.join (wireLines c.qubits o.qubit_names)
  ++ String.join (c.gates.map (renderGate c.qubits o))

/-- The path `export_to_qpic` opens when given a filename: the native
`.qpic` extension is appended when missing and the optional directory is
prefixed with `"{}/{}".format`. -/
def writtenPath (filename : String) (filepath : Option String) : String :=
  let fx := if filename.endsWith ".qpic" then filename else filename ++ ".qpic"
  match filepath with
  | none => fx
  | some p => p ++ "/" ++ fx

/-- Result of `export_to_qpic`: the returned document plus the performed
whole-file overwrites as (path, content) pairs. -/
structure QpicOut where
  doc : String
  writes : List (String × String)

/-- Translation of `export_to_qpic`: build the document, write it to the
resolved path when a filename was given, and return it either way. -/
def export_to_qpic (c : Circuit) (filename : Option String)
    (filepath : Option String) (o : Opts) : QpicOut :=
  let result := buildDoc c o
  match filename with
  | none => ⟨result, []⟩
  | some f => ⟨result, [(writtenPath f filepath, result)]⟩

/-- Python `s.split(c)` for a single-character separator, on the character
list of the string. -/
def splitOnC (c : Char) : List Char → List (List Char)
  | [] => [[]]
  | x :: xs =>
    if x = c then [] :: splitOnC c xs
    else
      match splitOnC c xs with
      | [] => [[x]]
      | y :: ys => (x :: y) :: ys

/-- Filename dissection of `export_to` (lines 165-179): split on dots, the
last segment is the target filetype and the remaining segments are joined
without separators; then split that on slashes, the last segment is the
base name and the earlier ones (each with a trailing slash, plus a leading
slash when the original filename was absolute) form the directory path.
Returns (base name, filetype, optional directory). -/
def export_parse (filename : List Char) : List Char × List Char × Option (List Char) :=
  let parts := splitOnC '.' filename
  let fty := if parts.length = 1 then ".pdf".toList else parts.getLastD []
  let fname0 := if parts.length = 1 then filename else List.flatten parts.dropLast
  let tmp := splitOnC '/' fname0
  let fname := tmp.getLastD []
  let fpath : Option (List Char) :=
    if 1 < tmp.length then
      some ((if filename.head? = some '/' then ['/'] else [])
        ++ List.flatten (tmp.dropLast.map (fun x => x ++ ['/'])))
    else none
  (fname, fty, fpath)

/-- Errors raised by `export_to`: qpic missing from the execution path, or
a filename without a dot. -/
inductive ExpErr where
  | noQpic
  | noFiletype

/-- One subprocess invocation: the argument vector and the working
directory (`cwd=fpath`). -/
structure RenderCall where
  args : List String
  cwd : Option String

/-- Result of a successful `export_to`: the document, the file writes, and
the renderer invocations, in order. -/
structure ExportOut where
  doc : String
  writes : List (String × String)
  calls : List RenderCall

/-- The subprocess invocations of `export_to` (line 190-191): unless the
requested filetype is already `"qpic"`, one call of
`qpic {fname}.qpic -f {ftype}` with the output directory as its working
directory. -/
def export_calls (filename : List Char) : List RenderCall :=
  if String.mk (export_parse filename).2.1 ≠ "qpic" then
    [RenderCall.mk
      ["qpic", String.mk (export_parse filename).1 ++ ".qpic", "-f",
       String.mk (export_parse filename).2.1]
      (((export_parse filename).2.2).map (fun l => String.mk l))]
  else []

/-- Translation of `export_to`. The two guard clauses raise before
anything else runs; then the filename is dissected, the circuit is passed
through the trotterising compiler (an external collaborator, supplied here
as a function argument), the document is built and written, and the
renderer is invoked per `export_calls`. -/
def export_to (hasQpic : Bool) (compile : Circuit → Circuit) (c : Circuit)
    (filename : List Char) (o : Opts) : Except ExpErr ExportOut :=
  if !hasQpic then Except.error ExpErr.noQpic
  else if '.' ∉ filename then Except.error ExpErr.noFiletype
  else
    let parsed := export_parse filename
    let q := export_to_qpic (compile c) (some (String.mk parsed.1))
      (parsed.2.2.map (fun l => String.mk l)) o
    Except.ok ⟨q.doc, q.writes, export_calls filename⟩

/-- The extension of a filename: the substring after the last dot. -/
def extOf (filename : List Char) : List Char :=
  (splitOnC '.' filename).getLastD []

/-- Join character-list segments with a separator character: the inverse
shape of `splitOnC`, used to quantify over filenames with a known
segment structure. -/
def joinSep (c : Char) : List (List Char) → List Char
  | [] => []
  | [s] => s
  | s :: rest => s ++ c :: joinSep c rest

/-- Tolerance stated by the amended claim C3: absolute 1e-4 plus the numpy
default relative 1e-5 of the compared fraction of pi (that fraction is
positive, so no absolute value is taken of it). -/
def specTol (b : ℚ) : ℚ := 1 / 10000 + 1 / 100000 * b

/-- The fixed-numeric branch of the label formatter as the amended spec
words it: check divisors 1..4 in order, emit a signed fraction label for
the first divisor whose fraction of pi is within `specTol` of the absolute
value, otherwise emit the signed 4-digit fixed-point decimal. -/
def specLabelFixed (v : ℚ) : String :=
  if abs (abs v - piQ / 1) ≤ specTol (piQ / 1) then fracLabel v 1
  else if abs (abs v - piQ / 2) ≤ specTol (piQ / 2) then fracLabel v 2
  else if abs (abs v - piQ / 3) ≤ specTol (piQ / 3) then fracLabel v 3
  else if abs (abs v - piQ / 4) ≤ specTol (piQ / 4) then fracLabel v 4
  else signedFixed4 v

/-! Concrete inputs used by witnesses and counterexamples. -/

/-- A parameter that is Python `None`. -/
def pNone : ParamV := ⟨false, false, "", false, 0, false, true, "None"⟩

/-- A symbolic (variable-carrying) parameter named `a`. -/
def pSym : ParamV := ⟨false, true, "a", false, 0, false, false, "a"⟩

/-- A fixed numeric parameter of value pi / 2. -/
def pHalfPi : ParamV := ⟨false, false, "", true, piQ / 2, true, false, ""⟩

/-- A fixed numeric parameter of value 0.123456. -/
def pDec : ParamV := ⟨false, false, "", true, 123456 / 1000000, true, false, ""⟩

/-- A fixed numeric parameter 1.2e-4 above pi: outside the absolute
tolerance 1e-4 but inside the numpy tolerance 1e-4 + 1e-5 * pi. -/
def pGap : ParamV := ⟨false, false, "", true, piQ + 12 / 100000, true, false, ""⟩

/-- The Pauli string X on qubit 0. -/
def psX0 : PauliString := ⟨[(0, "x")]⟩

/-- The Pauli string Y on qubit 1. -/
def psY1 : PauliString := ⟨[(1, "y")]⟩

/-- An uncontrolled gate whose generator has two non-empty Pauli strings. -/
def gGen : Gate := ⟨"R", [0, 1], [], false, pNone, false, "",
  fun _ => some [psX0, psY1], []⟩

/-- A two-qubit circuit containing only `gGen`. -/
def cGen : Circuit := ⟨[0, 1], [gGen]⟩

/-- Options with `group_together=True` and the other defaults. -/
def oGroup : Opts := ⟨true, false, GroupT.trueV, QNames.auto, true⟩

/-- The default options of `export_to_qpic`. -/
def oDef : Opts := ⟨true, false, GroupT.falseV, QNames.auto, true⟩

/-- An H gate on qubit 0 carrying a symbolic parameter. -/
def gHsym : Gate := ⟨"H", [0], [], true, pSym, false, "", fun _ => none, []⟩

/-- An H gate on qubit 0 with no parameter attribute. -/
def gH0 : Gate := ⟨"H", [0], [], false, pNone, false, "", fun _ => none, []⟩

/-- The empty circuit. -/
def c0 : Circuit := ⟨[], []⟩

/-- The filename `a.pdf`. -/
def fn0 : List Char := "a.pdf".toList

/-- The export result produced for `c0` and `a.pdf`. -/
def rEx : ExportOut :=
  ⟨buildDoc c0 oDef, [("a.qpic", buildDoc c0 oDef)],
   [RenderCall.mk ["qpic", "a.qpic", "-f", "pdf"] none]⟩

/-! Helper lemmas. -/

/-- Evaluating the numpy tolerance at a positive reference value gives the
plain (absolute-value-free) tolerance of the amended claim C3. -/
theorem iscloseTol_pos (b : ℚ) (hb : 0 < b) : iscloseTol b = specTol b := by
  unfold iscloseTol specTol
  rw [abs_of_pos hb]

/-- Zipping a list with a map of itself pairs each element with its image. -/
theorem zip_self_map {β : Type} (qs : List Nat) (f : Nat → β) :
    qs.zip (qs.map f) = qs.map (fun q => (q, f q)) := by
  induction qs with
  | nil => rfl
  | cons q t ih => simp [ih]

/-- A single-character split never returns the empty list. -/
theorem splitOnC_ne_nil (c : Char) (xs : List Char) : splitOnC c xs ≠ [] := by
  induction xs with
  | nil => simp [splitOnC]
  | cons x t ih =>
    by_cases h : x = c
    · simp [splitOnC, h]
    · rcases e : splitOnC c t with _ | ⟨y, ys⟩
      · exact absurd e ih
      · simp [splitOnC, h, e]

/-- Splitting a list free of the separator returns the list whole. -/
theorem splitOnC_of_not_mem {c : Char} {xs : List Char} (h : c ∉ xs) :
    splitOnC c xs = [xs] := by
  induction xs with
  | nil => rfl
  | cons x t ih =>
    have hx : x ≠ c := fun e => h (e ▸ List.mem_cons_self x t)
    have ht : c ∉ t := fun m => h (List.mem_cons_of_mem x m)
    simp [splitOnC, hx, ih ht]

/-- Splitting past a separator-free prefix peels that prefix off as the
first segment. -/
theorem splitOnC_append {c : Char} {xs : List Char} (ys : List Char)
    (h : c ∉ xs) : splitOnC c (xs ++ c :: ys) = xs :: splitOnC c ys := by
  induction xs with
  | nil => simp [splitOnC]
  | cons x t ih =>
    have hx : x ≠ c := fun e => h (e ▸ List.mem_cons_self x t)
    have ht : c ∉ t := fun m => h (List.mem_cons_of_mem x m)
    rcases e : splitOnC c (t ++ c :: ys) with _ | ⟨y, ys2⟩
    · exact absurd e (splitOnC_ne_nil c _)
    · have := ih ht
      rw [e] at this
      cases this
      simp [splitOnC, hx, e]

/-- Splitting undoes `joinSep` when no segment contains the separator. -/
theorem splitOnC_joinSep (c : Char) (segs : List (List Char))
    (hne : segs ≠ []) (hall : ∀ s ∈ segs, c ∉ s) :
    splitOnC c (joinSep c segs) = segs := by
  induction segs with
  | nil => exact absurd rfl hne
  | cons s rest ih =>
    cases rest with
    | nil => simpa [joinSep] using splitOnC_of_not_mem (hall s (List.mem_cons_self s []))
    | cons s2 r2 =>
      rw [show joinSep c (s :: s2 :: r2) = s ++ c :: joinSep c (s2 :: r2) from rfl,
        splitOnC_append _ (hall s (List.mem_cons_self s _)),
        ih (by simp) (fun x hx => hall x (List.mem_cons_of_mem s hx))]

/-- A list containing the separator splits into at least two segments. -/
theorem two_le_splitOnC_of_mem {c : Char} {l : List Char} (h : c ∈ l) :
    2 ≤ (splitOnC c l).length := by
  induction l with
  | nil => simp at h
  | cons x t ih =>
    by_cases hx : x = c
    · have h1 : 1 ≤ (splitOnC c t).length :=
        List.length_pos.mpr (splitOnC_ne_nil c t)
      simp [splitOnC, hx]
      omega
    · have ht : c ∈ t := by
        rcases List.mem_cons.mp h with h1 | h2
        · exact absurd h1.symm hx
        · exact h2
      rcases e : splitOnC c t with _ | ⟨y, ys⟩
      · exact absurd e (splitOnC_ne_nil c t)
      · have h2 := ih ht
        rw [e] at h2
        simp [splitOnC, hx, e]
        simpa using h2

/-- Rendering a gate whose name is H or h always takes the special-case
branch. -/
theorem renderGate_H (qs : List Nat) (o : Opts) (g : Gate)
    (h : g.name = "H" ∨ g.name = "h") :
    renderGate qs o g =
      renderHGate g (gateColors g o.mark_parametrized_gates).1
        (gateColors g o.mark_parametrized_gates).2 ++ "\n" := by
  unfold renderGate
  rw [if_pos h]

/-! Claim theorems. -/

/-- Claim C1, amended: with a surviving `group_together` directive, a gate
rendered through the generator branch emits its non-empty Pauli-string
term lines and then exactly one grouping line for the whole gate — a
reference to every circuit qubit followed by the upper-cased directive —
not one grouping line per term; `group_together=True` normalises to the
directive `TOUCH`. -/
theorem C1_group_line_per_gate (qs : List Nat) (o : Opts) (g : Gate)
    (gen : List PauliString) (s : String)
    (hH : g.name ≠ "H") (hh : g.name ≠ "h")
    (haug : o.always_use_generators = true)
    (hgen : g.makeGenerator o.decompose_control_generators = some gen)
    (hgrp : normGroup o.group_together = some s) :
    renderGate qs o g =
      renderTermLines g (gateColors g o.mark_parametrized_gates).1
        (gateColors g o.mark_parametrized_gates).2
        (g.is_controlled && !o.decompose_control_generators) gen
      ++ (String.join (qs.map (fun t => "a" ++ toString t ++ " "))
          ++ strUpper s ++ "\n")
      ++ "\n"
    ∧ normGroup GroupT.trueV = some "TOUCH" := by
  constructor
  · unfold renderGate
    rw [if_neg (by simp [hH, hh])]
    simp [haug, hgen, hgrp, groupLine]
  · rfl

set_option maxRecDepth 4000 in
/-- Claim C1, counterexample: in a two-qubit circuit whose only gate has a
generator with two non-empty terms and `group_together=True`, the document
contains the grouping line `a0 a1 TOUCH` exactly once, not once per
non-empty term as the claim states. -/
theorem C1_counterexample :
    ((splitOnC '\n' (buildDoc cGen oGroup).data).count "a0 a1 TOUCH".data) = 1 ∧
    (((gGen.makeGenerator false).getD []).filter
      (fun ps => !ps.entries.isEmpty)).length = 2 ∧
    buildDoc cGen oGroup =
      "COLOR tq 0.03137254901960784 0.1607843137254902 0.23921568627450981\n"
      ++ "COLOR guo 0.988 0.141 0.757\n"
      ++ "a0 W 0\na1 W 1\n"
      ++ " a0 P:fill=tq  \\textcolor\x7bwhite\x7d\x7bX\x7d \n"
      ++ " a1 P:fill=tq  \\textcolor\x7bwhite\x7d\x7bY\x7d \n"
      ++ "a0 a1 TOUCH\n\n" :=
  ⟨by decide, by decide, by decide⟩

/-- Claim C1, witness: the amended theorem applied to the concrete
two-term gate of the counterexample circuit. -/
theorem C1_witness :
    renderGate [0, 1] oGroup gGen =
      renderTermLines gGen (gateColors gGen oGroup.mark_parametrized_gates).1
        (gateColors gGen oGroup.mark_parametrized_gates).2
        (gGen.is_controlled && !oGroup.decompose_control_generators)
        [psX0, psY1]
      ++ (String.join ([0, 1].map (fun t => "a" ++ toString t ++ " "))
          ++ strUpper "TOUCH" ++ "\n")
      ++ "\n" :=
  (C1_group_line_per_gate [0, 1] oGroup gGen [psX0, psY1] "TOUCH"
    (by decide) (by decide) rfl rfl rfl).1

/-- Claim C2, amended: an H/h gate renders as the special-case box with the
colors chosen at the top of the gate loop, and those colors are the
highlight fill `guo` with BLACK text exactly when the gate carries a
non-numeric parameter and `mark_parametrized_gates` is set, and the
primary fill `tq` with WHITE text otherwise (the claim states the two
text colors the other way around). -/
theorem C2_h_gate_colors (qs : List Nat) (o : Opts) (g : Gate)
    (h : g.name = "H" ∨ g.name = "h") :
    renderGate qs o g =
      renderHGate g (gateColors g o.mark_parametrized_gates).1
        (gateColors g o.mark_parametrized_gates).2 ++ "\n"
    ∧ ((g.hasParameter && !g.parameter.isNumber
        && o.mark_parametrized_gates) = true →
        gateColors g o.mark_parametrized_gates = ("guo", "black"))
    ∧ ((g.hasParameter && !g.parameter.isNumber
        && o.mark_parametrized_gates) = false →
        gateColors g o.mark_parametrized_gates = ("tq", "white")) := by
  refine ⟨renderGate_H qs o g h, fun hc => ?_, fun hc => ?_⟩
  · simp [gateColors, hc]
  · simp [gateColors, hc]

/-- Claim C2, counterexample: an H gate with a symbolic parameter under
default options renders with fill `guo` and BLACK text, not the white
text the claim prescribes for the highlight color. -/
theorem C2_counterexample :
    renderGate [0] oDef gHsym = " a0 P:fill=guo  \\textcolor\x7bblack\x7d\x7bH\x7d \n"
    ∧ " a0 P:fill=guo  \\textcolor\x7bblack\x7d\x7bH\x7d \n"
      ≠ " a0 P:fill=guo  \\textcolor\x7bwhite\x7d\x7bH\x7d \n" :=
  ⟨by decide, by decide⟩

/-- Claim C2, witness: the amended theorem applied to the symbolic H gate,
whose colors come out as `guo` with black text. -/
theorem C2_witness :
    renderGate [0] oDef gHsym =
      renderHGate gHsym (gateColors gHsym oDef.mark_parametrized_gates).1
        (gateColors gHsym oDef.mark_parametrized_gates).2 ++ "\n"
    ∧ gateColors gHsym oDef.mark_parametrized_gates = ("guo", "black") :=
  ⟨(C2_h_gate_colors [0] oDef gHsym (Or.inl rfl)).1,
   (C2_h_gate_colors [0] oDef gHsym (Or.inl rfl)).2.1 (by decide)⟩

/-- Claim C4, confirmed: a gate named H or h renders through the
special-case branch — one filled box labelled H per target qubit with
control references appended when controlled — for every option set, and
in particular the rendering does not depend on `always_use_generators`. -/
theorem C4_h_special_case (qs : List Nat) (o : Opts) (g : Gate)
    (h : g.name = "H" ∨ g.name = "h") :
    renderGate qs o g =
      String.join (g.target.map (fun t =>
        opBox t (gateColors g o.mark_parametrized_gates).1
          (gateColors g o.mark_parametrized_gates).2 "H"
        ++ (if g.is_controlled then controlRefs g else ""))) ++ "\n"
    ∧ ∀ (a1 a2 dcg : Bool) (gt : GroupT) (qn : QNames) (mk : Bool),
        renderGate qs (Opts.mk a1 dcg gt qn mk) g
          = renderGate qs (Opts.mk a2 dcg gt qn mk) g := by
  constructor
  · rw [renderGate_H qs o g h]
    rfl
  · intro a1 a2 dcg gt qn mk
    rw [renderGate_H qs (Opts.mk a1 dcg gt qn mk) g h,
      renderGate_H qs (Opts.mk a2 dcg gt qn mk) g h]

/-- Claim C4, witness: the theorem applied to a plain H gate under the
default options. -/
theorem C4_witness :
    renderGate [0] oDef gH0 =
      String.join (gH0.target.map (fun t =>
        opBox t (gateColors gH0 oDef.mark_parametrized_gates).1
          (gateColors gH0 oDef.mark_parametrized_gates).2 "H"
        ++ (if gH0.is_controlled then controlRefs gH0 else ""))) ++ "\n" :=
  (C4_h_special_case [0] oDef gH0 (Or.inl rfl)).1

/-- Claim C7, confirmed: `export_to` returns the configuration error
whenever qpic is absent (for every filename and before the compiler, the
document builder or any write can run — the result is an error for every
`compile` function and carries no writes), and the usage error whenever
the filename contains no dot. -/
theorem C7_guard_clauses (compile : Circuit → Circuit) (c : Circuit)
    (fn : List Char) (o : Opts) :
    export_to false compile c fn o = Except.error ExpErr.noQpic
    ∧ ('.' ∉ fn →
        export_to true compile c fn o = Except.error ExpErr.noFiletype) := by
  constructor
  · rfl
  · intro h
    simp [export_to, h]

/-- Claim C7, witness: the usage error raised for the extension-free
filename `noext`. -/
theorem C7_witness :
    export_to true (fun x => x) c0 ("noext".toList) oDef
      = Except.error ExpErr.noFiletype :=
  (C7_guard_clauses (fun x => x) c0 ("noext".toList) oDef).2 (by decide)

/-- Claim C8, confirmed: with a filename, `export_to_qpic` performs exactly
one write whose content is the very string it returns (a whole-file
overwrite, so reading the file back yields the returned document), and the
returned document is the same string produced when no filename is given. -/
theorem C8_roundtrip (c : Circuit) (o : Opts) (f : String)
    (fp : Option String) :
    export_to_qpic c (some f) fp o
      = ⟨buildDoc c o, [(writtenPath f fp, buildDoc c o)]⟩
    ∧ export_to_qpic c none fp o = ⟨buildDoc c o, []⟩
    ∧ (export_to_qpic c (some f) fp o).doc = (export_to_qpic c none fp o).doc :=
  ⟨rfl, rfl, rfl⟩

/-- An empty Pauli string at the head of the term list contributes nothing
to the rendered output. -/
theorem renderTermLines_cons_empty (g : Gate) (gcol tcol : String)
    (ec : Bool) (ps : PauliString) (rest : List PauliString)
    (h : ps.entries.isEmpty = true) :
    renderTermLines g gcol tcol ec (ps :: rest)
      = renderTermLines g gcol tcol ec rest := by
  show (if ps.entries.isEmpty then ""
        else String.join (ps.entries.map (fun kv => opBox kv.1 gcol tcol (strUpper kv.2)))
          ++ (if ec then controlRefs g else "") ++ "\n")
       ++ renderTermLines g gcol tcol ec rest
     = renderTermLines g gcol tcol ec rest
  rw [if_pos h]
  rfl

/-- Claim C9, confirmed: both generator loops drop empty Pauli strings
entirely — rendering a term list equals rendering the list with the empty
terms filtered out, for every control-emission mode (the two branches
differ only in that flag). -/
theorem C9_empty_terms_skipped (g : Gate) (gcol tcol : String) (ec : Bool)
    (terms : List PauliString) :
    renderTermLines g gcol tcol ec terms =
      renderTermLines g gcol tcol ec
        (terms.filter (fun ps => !ps.entries.isEmpty)) := by
  induction terms with
  | nil => rfl
  | cons ps rest ih =>
    by_cases h : ps.entries.isEmpty
    · have e2 : (ps :: rest).filter (fun p => !p.entries.isEmpty)
          = rest.filter (fun p => !p.entries.isEmpty) := by
        simp [List.filter_cons, h]
      rw [e2, renderTermLines_cons_empty g gcol tcol ec ps rest h]
      exact ih
    · have e2 : (ps :: rest).filter (fun p => !p.entries.isEmpty)
          = ps :: rest.filter (fun p => !p.entries.isEmpty) := by
        simp [List.filter_cons, h]
      rw [e2]
      simp only [renderTermLines]
      rw [ih]

/-- Claim C5, confirmed: the document consists of the color header, then
the wire-declaration lines, then the gate renderings; the wire lines are
one per qubit in circuit order, displaying the raw qubit identifier when
no names are supplied, the broadcast string when a single name is
supplied, and the positional caller-supplied name when a list (of matching
length) is supplied. -/
theorem C5_wire_lines :
    (∀ (c : Circuit) (o : Opts),
      buildDoc c o = colorHeader ++ String.join (wireLines c.qubits o.qubit_names)
        ++ String.join (c.gates.map (renderGate c.qubits o)))
    ∧ (∀ qs : List Nat, wireLines qs QNames.auto
        = qs.map (fun q => wireId q ++ " W " ++ toString q ++ "\n"))
    ∧ (∀ (qs : List Nat) (s : String), wireLines qs (QNames.single s)
        = qs.map (fun q => wireId q ++ " W " ++ s ++ "\n"))
    ∧ (∀ (qs : List Nat) (l : List String), l.length = qs.length →
        wireLines qs (QNames.perQubit l)
          = (qs.zip l).map (fun p => wireId p.1 ++ " W " ++ p.2 ++ "\n"))
    ∧ (∀ qs : List Nat, (wireLines qs QNames.auto).length = qs.length)
    ∧ (∀ (qs : List Nat) (s : String),
        (wireLines qs (QNames.single s)).length = qs.length)
    ∧ (∀ (qs : List Nat) (l : List String), l.length = qs.length →
        (wireLines qs (QNames.perQubit l)).length = qs.length) := by
  refine ⟨fun c o => rfl, fun qs => ?_, fun qs s => ?_, fun qs l h => rfl,
    fun qs => ?_, fun qs s => ?_, fun qs l h => ?_⟩
  · unfold wireLines resolveQNames
    rw [zip_self_map, List.map_map]
    rfl
  · unfold wireLines resolveQNames
    rw [zip_self_map, List.map_map]
    rfl
  · simp [wireLines, resolveQNames]
  · simp [wireLines, resolveQNames]
  · simp [wireLines, resolveQNames, h]

/-- Claim C5, witness: the positional-name case evaluated on a one-qubit
circuit. -/
theorem C5_witness :
    wireLines [5] (QNames.perQubit ["q"]) = ["a5 W q\n"] :=
  Eq.trans (C5_wire_lines.2.2.2.1 [5] ["q"] rfl) (by decide)

/-- Claim C6, confirmed: a successful `export_to` performs no renderer
call when the extension after the last dot is `qpic`, and otherwise
performs exactly one, whose argument vector is the qpic executable, the
intermediate document name with the `.qpic` suffix, the flag `-f` and the
extension, and whose working directory is the parsed output directory. -/
theorem C6_renderer_invocation (hq : Bool) (compile : Circuit → Circuit)
    (c : Circuit) (fn : List Char) (o : Opts) (r : ExportOut)
    (h : export_to hq compile c fn o = Except.ok r) :
    (String.mk (extOf fn) = "qpic" → r.calls = [])
    ∧ (String.mk (extOf fn) ≠ "qpic" →
        r.calls = [RenderCall.mk
          ["qpic", String.mk (export_parse fn).1 ++ ".qpic", "-f",
           String.mk (extOf fn)]
          (((export_parse fn).2.2).map (fun l => String.mk l))]) := by
  have hc : '.' ∈ fn := by
    by_contra hn
    cases hq <;> simp [export_to, hn] at h
  have hcalls : r.calls = export_calls fn := by
    cases hq with
    | false => simp [export_to] at h
    | true =>
      simp only [export_to, Bool.not_true, Bool.false_eq_true, if_false] at h
      rw [if_neg (fun hn => hn hc)] at h
      have h3 := Except.ok.inj h
      rw [← h3]
  have hlen : ¬ ((splitOnC '.' fn).length = 1) := by
    have := two_le_splitOnC_of_mem hc
    omega
  have hft : (export_parse fn).2.1 = extOf fn := by
    simp [export_parse, extOf, hlen]
  constructor
  · intro he
    rw [hcalls]
    unfold export_calls
    rw [hft, if_neg (not_not_intro he)]
  · intro he
    rw [hcalls]
    unfold export_calls
    rw [hft, if_pos he]

/-- Claim C6, witness: exporting the empty circuit to `a.pdf` invokes the
renderer once as `qpic a.qpic -f pdf`. -/
theorem C6_witness :
    rEx.calls = [RenderCall.mk
      ["qpic", String.mk (export_parse fn0).1 ++ ".qpic", "-f",
       String.mk (extOf fn0)]
      (((export_parse fn0).2.2).map (fun l => String.mk l))] :=
  (C6_renderer_invocation true (fun x => x) c0 fn0 oDef rEx rfl).2 (by decide)

/-- The fixed-numeric branch of `assign_name`, isolated. -/
theorem assign_name_fixed (p : ParamV) (h1 : p.isTuple = false)
    (h2 : p.hasExtractVariables = false) (h3 : p.isFixedVariable = true) :
    assign_name p = (match closeIdx p.value with
      | some i => fracLabel p.value i
      | none => signedFixed4 p.value) := by
  simp [assign_name, h1, h2, h3]

/-- The code loop agrees with the spec chain once the tolerance is stated
without the redundant absolute value. -/
theorem closeIdx_agrees_spec (v : ℚ) :
    (match closeIdx v with
      | some i => fracLabel v i
      | none => signedFixed4 v) = specLabelFixed v := by
  have hpi : (0 : ℚ) < piQ := by norm_num [piQ]
  have t1 : iscloseTol (piQ / 1) = specTol (piQ / 1) :=
    iscloseTol_pos _ (div_pos hpi (by norm_num))
  have t2 : iscloseTol (piQ / 2) = specTol (piQ / 2) :=
    iscloseTol_pos _ (div_pos hpi (by norm_num))
  have t3 : iscloseTol (piQ / 3) = specTol (piQ / 3) :=
    iscloseTol_pos _ (div_pos hpi (by norm_num))
  have t4 : iscloseTol (piQ / 4) = specTol (piQ / 4) :=
    iscloseTol_pos _ (div_pos hpi (by norm_num))
  unfold closeIdx specLabelFixed
  simp only [t1, t2, t3, t4]
  split_ifs <;> rfl

/-- Claim C3, amended: the label formatter for fixed numeric parameters
checks divisors 1..4 in order against the numpy tolerance — absolute 1e-4
PLUS the default relative 1e-5 of pi/i, not the plain absolute 1e-4 the
claim states — emits the sign-carrying fraction label on the first hit and
the signed 4-digit fixed-point decimal otherwise; in particular
0.123456 formats as `+0.1235` and pi/2 as `+\pi/2`. -/
theorem C3_label_formatter :
    (∀ p : ParamV, p.isTuple = false → p.hasExtractVariables = false →
      p.isFixedVariable = true → assign_name p = specLabelFixed p.value)
    ∧ assign_name pDec = "+0.1235"
    ∧ assign_name pHalfPi = "+\\pi/2" := by
  have main : ∀ p : ParamV, p.isTuple = false → p.hasExtractVariables = false →
      p.isFixedVariable = true → assign_name p = specLabelFixed p.value := by
    intro p h1 h2 h3
    rw [assign_name_fixed p h1 h2 h3, closeIdx_agrees_spec]
  refine ⟨main, ?_, ?_⟩
  · have habs : abs ((123456 : ℚ) / 1000000) = 123456 / 1000000 :=
      abs_of_pos (by norm_num)
    have c1 : ¬ (abs (abs ((123456 : ℚ) / 1000000) - piQ / 1) ≤ iscloseTol (piQ / 1)) := by
      rw [habs, abs_of_neg (show (123456 : ℚ) / 1000000 - piQ / 1 < 0 by norm_num [piQ]),
        iscloseTol, abs_of_pos (show (0 : ℚ) < piQ / 1 by norm_num [piQ])]
      norm_num [piQ]
    have c2 : ¬ (abs (abs ((123456 : ℚ) / 1000000) - piQ / 2) ≤ iscloseTol (piQ / 2)) := by
      rw [habs, abs_of_neg (show (123456 : ℚ) / 1000000 - piQ / 2 < 0 by norm_num [piQ]),
        iscloseTol, abs_of_pos (show (0 : ℚ) < piQ / 2 by norm_num [piQ])]
      norm_num [piQ]
    have c3 : ¬ (abs (abs ((123456 : ℚ) / 1000000) - piQ / 3) ≤ iscloseTol (piQ / 3)) := by
      rw [habs, abs_of_neg (show (123456 : ℚ) / 1000000 - piQ / 3 < 0 by norm_num [piQ]),
        iscloseTol, abs_of_pos (show (0 : ℚ) < piQ / 3 by norm_num [piQ])]
      norm_num [piQ]
    have c4 : ¬ (abs (abs ((123456 : ℚ) / 1000000) - piQ / 4) ≤ iscloseTol (piQ / 4)) := by
      rw [habs, abs_of_neg (show (123456 : ℚ) / 1000000 - piQ / 4 < 0 by norm_num [piQ]),
        iscloseTol, abs_of_pos (show (0 : ℚ) < piQ / 4 by norm_num [piQ])]
      norm_num [piQ]
    have hidx : closeIdx ((123456 : ℚ) / 1000000) = none := by
      unfold closeIdx
      rw [if_neg c1, if_neg c2, if_neg c3, if_neg c4]
    have hval : pDec.value = (123456 : ℚ) / 1000000 := rfl
    rw [assign_name_fixed pDec rfl rfl rfl, hval, hidx]
    have hfl : (Int.floor (abs ((123456 : ℚ) / 1000000) * 10000 + 1 / 2)) = 1235 := by
      rw [habs]
      norm_num
    unfold signedFixed4
    rw [hfl, if_neg (show ¬ ((123456 : ℚ) / 1000000 < 0) by norm_num)]
    decide
  · have habs : abs (piQ / 2) = piQ / 2 :=
      abs_of_pos (by norm_num [piQ])
    have c1 : ¬ (abs (abs (piQ / 2) - piQ / 1) ≤ iscloseTol (piQ / 1)) := by
      rw [habs, abs_of_neg (show piQ / 2 - piQ / 1 < 0 by norm_num [piQ]),
        iscloseTol, abs_of_pos (show (0 : ℚ) < piQ / 1 by norm_num [piQ])]
      norm_num [piQ]
    have c2 : abs (abs (piQ / 2) - piQ / 2) ≤ iscloseTol (piQ / 2) := by
      rw [habs, sub_self, abs_zero, iscloseTol,
        abs_of_pos (show (0 : ℚ) < piQ / 2 by norm_num [piQ])]
      norm_num [piQ]
    have hidx : closeIdx (piQ / 2) = some 2 := by
      unfold closeIdx
      rw [if_neg c1, if_pos c2]
    have hval : pHalfPi.value = piQ / 2 := rfl
    rw [assign_name_fixed pHalfPi rfl rfl rfl, hval, hidx]
    show fracLabel (piQ / 2) 2 = "+\\pi/2"
    unfold fracLabel
    rw [if_neg (show ¬ (piQ / 2 < 0) by norm_num [piQ])]
    decide

/-- Claim C3, counterexample: the value pi + 1.2e-4 is farther than the
absolute tolerance 1e-4 from every pi/i with i in 1..4 — so the claim
prescribes the decimal label, which would be `+3.1417` — yet the code
labels it `+\pi/1`, because the numpy closeness test also carries the
default relative tolerance 1e-5. -/
theorem C3_counterexample :
    assign_name pGap = "+\\pi/1"
    ∧ ¬ (abs (abs pGap.value - piQ / 1) ≤ 1 / 10000)
    ∧ ¬ (abs (abs pGap.value - piQ / 2) ≤ 1 / 10000)
    ∧ ¬ (abs (abs pGap.value - piQ / 3) ≤ 1 / 10000)
    ∧ ¬ (abs (abs pGap.value - piQ / 4) ≤ 1 / 10000)
    ∧ signedFixed4 pGap.value = "+3.1417"
    ∧ "+\\pi/1" ≠ "+3.1417" := by
  have hval : pGap.value = piQ + 12 / 100000 := rfl
  have habs : abs (piQ + 12 / 100000) = piQ + 12 / 100000 :=
    abs_of_pos (by norm_num [piQ])
  have e1 : abs (abs (piQ + 12 / 100000) - piQ / 1) ≤ iscloseTol (piQ / 1) := by
    rw [habs, abs_of_pos (show (0 : ℚ) < piQ + 12 / 100000 - piQ / 1 by norm_num [piQ]),
      iscloseTol, abs_of_pos (show (0 : ℚ) < piQ / 1 by norm_num [piQ])]
    norm_num [piQ]
  have hidx : closeIdx (piQ + 12 / 100000) = some 1 := by
    unfold closeIdx
    rw [if_pos e1]
  refine ⟨?_, ?_, ?_, ?_, ?_, ?_, by decide⟩
  · rw [assign_name_fixed pGap rfl rfl rfl, hval, hidx]
    show fracLabel (piQ + 12 / 100000) 1 = "+\\pi/1"
    unfold fracLabel
    rw [if_neg (show ¬ (piQ + 12 / 100000 < 0) by norm_num [piQ])]
    decide
  · rw [hval, habs,
      abs_of_pos (show (0 : ℚ) < piQ + 12 / 100000 - piQ / 1 by norm_num [piQ])]
    norm_num [piQ]
  · rw [hval, habs,
      abs_of_pos (show (0 : ℚ) < piQ + 12 / 100000 - piQ / 2 by norm_num [piQ])]
    norm_num [piQ]
  · rw [hval, habs,
      abs_of_pos (show (0 : ℚ) < piQ + 12 / 100000 - piQ / 3 by norm_num [piQ])]
    norm_num [piQ]
  · rw [hval, habs,
      abs_of_pos (show (0 : ℚ) < piQ + 12 / 100000 - piQ / 4 by norm_num [piQ])]
    norm_num [piQ]
  · have hfl : (Int.floor (abs (piQ + 12 / 100000) * 10000 + 1 / 2)) = 31417 := by
      rw [habs]
      norm_num [piQ]
    rw [hval]
    unfold signedFixed4
    rw [hfl, if_neg (show ¬ (piQ + 12 / 100000 < 0) by norm_num [piQ])]
    decide

/-- Claim C3, witness: the amended agreement theorem applied to the
concrete parameter pi/2. -/
theorem C3_witness :
    assign_name pHalfPi = specLabelFixed pHalfPi.value :=
  C3_label_formatter.1 pHalfPi rfl rfl rfl

/-- Claim C10, amended: for an accepted filename, the extension is the
segment after the last dot and the dot-separated earlier segments are
concatenated with the dots removed, but the base name handed to the
document builder is only the part of that concatenation after the last
slash: a leading directory is split off (with a trailing slash) into the
separate directory argument. Stated for filenames of the shape
`dir/base1.seg...segN.ext` and `base1.seg...segN.ext` built by `joinSep`. -/
theorem C10_basename_parsing (d b1 : List Char) (mids : List (List Char))
    (e : List Char) (hd : d ≠ []) (hdd : '.' ∉ d) (hds : '/' ∉ d)
    (hb1d : '.' ∉ b1) (hb1s : '/' ∉ b1)
    (hmids : ∀ m ∈ mids, '.' ∉ m ∧ '/' ∉ m)
    (hed : '.' ∉ e) (hes : '/' ∉ e) :
    export_parse (joinSep '.' ((d ++ '/' :: b1) :: mids ++ [e]))
      = (b1 ++ mids.flatten, e, some (d ++ ['/']))
    ∧ export_parse (joinSep '.' (b1 :: mids ++ [e]))
      = (b1 ++ mids.flatten, e, none) := by
  have hslash : '/' ∉ b1 ++ mids.flatten := by
    intro hm
    rcases List.mem_append.mp hm with h | h
    · exact hb1s h
    · rcases List.mem_flatten.mp h with ⟨l, hl, hml⟩
      exact (hmids l hl).2 hml
  constructor
  · have hall : ∀ s ∈ (d ++ '/' :: b1) :: mids ++ [e], '.' ∉ s := by
      intro s hs
      rcases List.mem_cons.mp hs with rfl | hs2
      · intro hm
        rcases List.mem_append.mp hm with h | h
        · exact hdd h
        · rcases List.mem_cons.mp h with h | h
          · exact absurd h (by decide)
          · exact hb1d h
      · rcases List.mem_append.mp hs2 with h | h
        · exact (hmids s h).1
        · have : s = e := by simpa using h
          exact this ▸ hed
    have hsplit : splitOnC '.' (joinSep '.' ((d ++ '/' :: b1) :: mids ++ [e]))
        = (d ++ '/' :: b1) :: mids ++ [e] :=
      splitOnC_joinSep _ _ (by simp) hall
    have hlen : ¬ (((d ++ '/' :: b1) :: mids ++ [e]).length = 1) := by
      simp only [List.length_cons, List.length_append]
      omega
    have heq : (d ++ '/' :: b1) :: mids ++ [e] = ((d ++ '/' :: b1) :: mids) ++ [e] := by
      simp
    have hdrop : ((d ++ '/' :: b1) :: mids ++ [e]).dropLast = (d ++ '/' :: b1) :: mids := by
      rw [heq, List.dropLast_concat]
    have hlast : ((d ++ '/' :: b1) :: mids ++ [e]).getLastD [] = e := by
      rw [heq]
      exact List.getLastD_concat _ _ _
    have hflat : ((d ++ '/' :: b1) :: mids).flatten = d ++ '/' :: (b1 ++ mids.flatten) := by
      simp
    have hsplit2 : splitOnC '/' (d ++ '/' :: (b1 ++ mids.flatten))
        = [d, b1 ++ mids.flatten] := by
      rw [splitOnC_append _ hds, splitOnC_of_not_mem hslash]
    have hjoin : joinSep '.' ((d ++ '/' :: b1) :: mids ++ [e])
        = (d ++ '/' :: b1) ++ '.' :: joinSep '.' (mids ++ [e]) := by
      cases mids with
      | nil => rfl
      | cons m ms => rfl
    have hne2 : ¬ ((joinSep '.' ((d ++ '/' :: b1) :: mids ++ [e])).head? = some '/') := by
      rw [hjoin]
      cases d with
      | nil => exact absurd rfl hd
      | cons a t =>
        intro hE
        have ha : a = '/' := Option.some.inj hE
        exact hds (ha ▸ List.mem_cons_self a t)
    unfold export_parse
    rw [hsplit]
    dsimp only
    rw [if_neg hlen, if_neg hlen, hlast, hdrop, hflat, hsplit2]
    simp [hne2, List.getLastD]
    exact hne2
  · have hall : ∀ s ∈ b1 :: mids ++ [e], '.' ∉ s := by
      intro s hs
      rcases List.mem_cons.mp hs with rfl | hs2
      · exact hb1d
      · rcases List.mem_append.mp hs2 with h | h
        · exact (hmids s h).1
        · have : s = e := by simpa using h
          exact this ▸ hed
    have hsplit : splitOnC '.' (joinSep '.' (b1 :: mids ++ [e]))
        = b1 :: mids ++ [e] :=
      splitOnC_joinSep _ _ (by simp) hall
    have hlen : ¬ ((b1 :: mids ++ [e]).length = 1) := by
      simp only [List.length_cons, List.length_append]
      omega
    have heq : b1 :: mids ++ [e] = (b1 :: mids) ++ [e] := by
      simp
    have hdrop : (b1 :: mids ++ [e]).dropLast = b1 :: mids := by
      rw [heq, List.dropLast_concat]
    have hlast : (b1 :: mids ++ [e]).getLastD [] = e := by
      rw [heq]
      exact List.getLastD_concat _ _ _
    have hflat : (b1 :: mids).flatten = b1 ++ mids.flatten := by
      simp
    have hsplit2 : splitOnC '/' (b1 ++ mids.flatten) = [b1 ++ mids.flatten] :=
      splitOnC_of_not_mem hslash
    unfold export_parse
    rw [hsplit]
    dsimp only
    rw [if_neg hlen, if_neg hlen, hlast, hdrop, hflat, hsplit2]
    simp [List.getLastD]

/-- Claim C10, counterexample: for the filename `d/a.b.pdf` the base name
handed to the document builder is `ab`, not the dot-free concatenation
`d/ab` of all earlier dot-separated segments that the claim prescribes. -/
theorem C10_counterexample :
    export_parse ("d/a.b.pdf".toList)
      = ("ab".toList, "pdf".toList, some ("d/".toList))
    ∧ (export_parse ("d/a.b.pdf".toList)).1
      ≠ ((splitOnC '.' ("d/a.b.pdf".toList)).dropLast).flatten :=
  ⟨by decide, by decide⟩

/-- Claim C10, witness: the amended theorem applied to the segments of
`d/a.b.pdf`. -/
theorem C10_witness :
    export_parse (joinSep '.' (("d".toList ++ '/' :: "a".toList)
        :: ["b".toList] ++ ["pdf".toList]))
      = ("a".toList ++ ([["b".toList]] : List (List (List Char))).flatten.flatten,
         "pdf".toList, some ("d".toList ++ ['/'])) := by
  have h := (C10_basename_parsing "d".toList "a".toList ["b".toList] "pdf".toList
    (by decide) (by decide) (by decide) (by decide) (by decide)
    (by decide) (by decide) (by decide)).1
  simpa using h

end Qpic
